import Mathlib

/-!
# Verification of the earthquake-template application core

Shallow embedding of the core logic of `src/App.js`: the template engine
(`fillTemplate`), the earthquake selector (filter + stable sort + default
selection), the field formatter, and the application-shell state machine.
Strings are modelled as `List Char`.
-/

namespace Bousai

/-- The character `{` (written via its code point to keep brace characters
out of the source text of the development). -/
def lbrace : Char := Char.ofNat 123

/-- The character `}`. -/
def rbrace : Char := Char.ofNat 125

/-- The character `$`. -/
def dollarCh : Char := Char.ofNat 36

/-- The character `&`. -/
def ampCh : Char := Char.ofNat 38

/-- The backquote character. -/
def backqCh : Char := Char.ofNat 96

/-- The single-quote character. -/
def squoteCh : Char := Char.ofNat 39

/-!
## JavaScript `String.prototype.replace` with a global literal pattern

`template.replace(/tok/g, rep)` scans the string left to right, replaces
every non-overlapping occurrence of the literal pattern, and interprets
the special `$`-sequences of the replacement string at each match:
`$$` is a literal dollar, `$&` the matched text, a dollar followed by a
backquote the part of the original string before the match, and a dollar
followed by a quote the part after the match.  (The patterns used by the
program contain no capture groups, so `$1`-style references stay literal.)
-/

/-- Expansion of the `$`-sequences of a replacement string at one match:
`b` is the part of the subject before the match, `m` the matched text and
`a` the part after the match. -/
def dollarExpand (b m a : List Char) : List Char → List Char
  | [] => []
  | c :: rest =>
    if c = dollarCh then
      match rest with
      | [] => [dollarCh]
      | d :: rest' =>
        if d = dollarCh then dollarCh :: dollarExpand b m a rest'
        else if d = ampCh then m ++ dollarExpand b m a rest'
        else if d = backqCh then b ++ dollarExpand b m a rest'
        else if d = squoteCh then a ++ dollarExpand b m a rest'
        else dollarCh :: d :: dollarExpand b m a rest'
    else c :: dollarExpand b m a rest

/-- `true` iff the string contains no dollar character (so that
`dollarExpand` is the identity on it). -/
def noDollar (s : List Char) : Bool := s.all fun c => c ≠ dollarCh

/-- One pass of JavaScript global replace over the subject `s`, which is
the suffix of `orig` starting at position `i`.  The fuel argument only
forces termination; `jsReplace` supplies enough of it. -/
def jsReplaceGo (orig : List Char) (p : Char) (ps rep : List Char) :
    Nat → Nat → List Char → List Char
  | 0, _, s => s
  | _ + 1, _, [] => []
  | fuel + 1, i, c :: rest =>
    if (p :: ps).isPrefixOf (c :: rest) then
      dollarExpand (orig.take i) (p :: ps) (orig.drop (i + (ps.length + 1))) rep ++
        jsReplaceGo orig p ps rep fuel (i + (ps.length + 1)) (rest.drop ps.length)
    else
      c :: jsReplaceGo orig p ps rep fuel (i + 1) rest

/-- JavaScript `s.replace(/pat/g, rep)` for a literal non-empty pattern
`pat` (the five patterns of the program are literal in the regex sense). -/
def jsReplace (s pat rep : List Char) : List Char :=
  match pat with
  | [] => s
  | p :: ps => jsReplaceGo s p ps rep s.length 0 s

/-- The pure core of one global-replace pass when the replacement string
contains no dollar character: the surrounding context is then irrelevant. -/
def replaceGo (p : Char) (ps rep : List Char) : Nat → List Char → List Char
  | 0, s => s
  | _ + 1, [] => []
  | fuel + 1, c :: rest =>
    if (p :: ps).isPrefixOf (c :: rest) then
      rep ++ replaceGo p ps rep fuel (rest.drop ps.length)
    else
      c :: replaceGo p ps rep fuel rest

/-- Context-free form of `jsReplace`, adequate for dollar-free
replacement strings. -/
def replaceL (pat rep s : List Char) : List Char :=
  match pat with
  | [] => s
  | p :: ps => replaceGo p ps rep s.length s

/-- `true` iff the (non-empty) pattern occurs somewhere in the string. -/
def hasOccur (pat : List Char) : List Char → Bool
  | [] => pat.isPrefixOf []
  | c :: rest => pat.isPrefixOf (c :: rest) || hasOccur pat rest

theorem dollarExpand_of_noDollar (b m a : List Char) :
    ∀ rep : List Char, noDollar rep = true → dollarExpand b m a rep = rep := by
  intro rep
  induction rep with
  | nil => intro _; rfl
  | cons c rest ih =>
    intro h
    simp only [noDollar, List.all_cons, Bool.and_eq_true, decide_eq_true_eq] at h
    have hc : ¬ c = dollarCh := h.1
    have hrest : noDollar rest = true := h.2
    rw [dollarExpand.eq_def]
    simp [hc, ih hrest]

theorem jsReplaceGo_eq_replaceGo (orig : List Char) (p : Char) (ps rep : List Char)
    (h : noDollar rep = true) :
    ∀ fuel i s, jsReplaceGo orig p ps rep fuel i s = replaceGo p ps rep fuel s := by
  intro fuel
  induction fuel with
  | zero => intro i s; rfl
  | succ n ih =>
    intro i s
    cases s with
    | nil => rfl
    | cons c rest =>
      by_cases hp : (p :: ps).isPrefixOf (c :: rest) = true
      · simp [jsReplaceGo, replaceGo, hp, dollarExpand_of_noDollar _ _ _ rep h, ih]
      · simp [jsReplaceGo, replaceGo, hp, ih]

theorem jsReplace_eq_replaceL (s pat rep : List Char) (h : noDollar rep = true) :
    jsReplace s pat rep = replaceL pat rep s := by
  cases pat with
  | nil => rfl
  | cons p ps => simp [jsReplace, replaceL, jsReplaceGo_eq_replaceGo _ _ _ _ h]

theorem replaceGo_nil (p : Char) (ps rep : List Char) :
    ∀ fuel, replaceGo p ps rep fuel [] = [] := by
  intro fuel; cases fuel <;> rfl

theorem replaceGo_fuel (p : Char) (ps rep : List Char) :
    ∀ fuel₁ fuel₂ s, s.length ≤ fuel₁ → s.length ≤ fuel₂ →
      replaceGo p ps rep fuel₁ s = replaceGo p ps rep fuel₂ s := by
  intro fuel₁
  induction fuel₁ with
  | zero =>
    intro fuel₂ s h1 _
    have : s = [] := List.length_eq_zero.mp (Nat.le_zero.mp h1)
    subst this
    exact (replaceGo_nil p ps rep fuel₂).symm
  | succ n ih =>
    intro fuel₂ s h1 h2
    cases s with
    | nil => simp [replaceGo_nil]
    | cons c rest =>
      cases fuel₂ with
      | zero => exact absurd h2 (by simp)
      | succ m =>
        by_cases hp : (p :: ps).isPrefixOf (c :: rest) = true
        · have hdrop : (rest.drop ps.length).length ≤ rest.length := by
            rw [List.length_drop]; omega
          have hlen : (rest.drop ps.length).length ≤ n := by
            have : rest.length ≤ n := Nat.succ_le_succ_iff.mp (by simpa using h1)
            omega
          have hlen2 : (rest.drop ps.length).length ≤ m := by
            have : rest.length ≤ m := Nat.succ_le_succ_iff.mp (by simpa using h2)
            omega
          simp [replaceGo, hp, ih _ _ hlen hlen2]
        · have hlen : rest.length ≤ n := Nat.succ_le_succ_iff.mp (by simpa using h1)
          have hlen2 : rest.length ≤ m := Nat.succ_le_succ_iff.mp (by simpa using h2)
          simp [replaceGo, hp, ih _ _ hlen hlen2]

theorem replaceGo_no_occur (orig : List Char) (p : Char) (ps rep : List Char) :
    ∀ s, hasOccur (p :: ps) s = false →
      ∀ fuel i, jsReplaceGo orig p ps rep fuel i s = s := by
  intro s
  induction s with
  | nil =>
    intro _ fuel i
    cases fuel <;> rfl
  | cons c rest ih =>
    intro h fuel i
    simp only [hasOccur, Bool.or_eq_false_iff] at h
    cases fuel with
    | zero => rfl
    | succ n => simp [jsReplaceGo, h.1, ih h.2]

theorem jsReplace_of_no_occur (s pat rep : List Char) (h : hasOccur pat s = false) :
    jsReplace s pat rep = s := by
  cases pat with
  | nil => rfl
  | cons p ps => exact replaceGo_no_occur s p ps rep s h s.length 0

/-- `true` iff the character `x` does not appear in the string. -/
def noChar (x : Char) (s : List Char) : Bool := s.all fun c => c ≠ x

theorem isPrefixOf_append_self : ∀ u v : List Char, u.isPrefixOf (u ++ v) = true := by
  intro u v
  induction u with
  | nil => simp
  | cons c u' ih => simp [List.isPrefixOf_cons₂, ih]

/-- A replace pass walks unchanged over a leading piece that contains no
opening brace, because every pattern of the program starts with one. -/
theorem replaceL_append_clean (ps rep : List Char) :
    ∀ u : List Char, noChar lbrace u = true → ∀ rest : List Char,
      replaceL (lbrace :: ps) rep (u ++ rest) =
        u ++ replaceL (lbrace :: ps) rep rest := by
  intro u
  induction u with
  | nil => intro _ rest; simp
  | cons c u' ih =>
    intro hu rest
    simp only [noChar, List.all_cons, Bool.and_eq_true, decide_eq_true_eq] at hu
    have hbeq : (lbrace == c) = false := beq_eq_false_iff_ne.mpr fun e => hu.1 e.symm
    have hpre : (lbrace :: ps).isPrefixOf (c :: (u' ++ rest)) = false := by
      rw [List.isPrefixOf_cons₂, hbeq]
      simp
    show replaceGo lbrace ps rep ((c :: (u' ++ rest)).length) (c :: (u' ++ rest)) = _
    rw [List.length_cons, replaceGo]
    rw [if_neg (by simp [hpre])]
    have ih' := ih hu.2 rest
    show c :: replaceL (lbrace :: ps) rep (u' ++ rest) = _
    rw [ih']
    simp

/-- A replace pass finds the pattern standing at the front of the string
and substitutes the replacement for it. -/
theorem replaceL_append_pat (p : Char) (ps rep rest : List Char) :
    replaceL (p :: ps) rep ((p :: ps) ++ rest) = rep ++ replaceL (p :: ps) rep rest := by
  show replaceGo p ps rep ((p :: (ps ++ rest)).length) (p :: (ps ++ rest)) = _
  rw [List.length_cons, replaceGo]
  have hpos : (p :: ps).isPrefixOf (p :: (ps ++ rest)) = true :=
    isPrefixOf_append_self (p :: ps) rest
  rw [if_pos hpos]
  have hdrop : (ps ++ rest).drop ps.length = rest := List.drop_left ps rest
  rw [hdrop]
  have hfuel : replaceGo p ps rep (ps ++ rest).length rest =
      replaceGo p ps rep rest.length rest :=
    replaceGo_fuel p ps rep _ _ rest (by simp) (le_refl _)
  rw [hfuel]
  rfl

/-- A pattern of the shape `left-brace, name, right-brace` sits at the
front of `mm ++ right-brace :: rest` exactly when the two names agree,
as long as neither name contains a right brace. -/
theorem close_append_isPrefixOf (rest : List Char) :
    ∀ nm mm : List Char, noChar rbrace nm = true → noChar rbrace mm = true →
      (((nm ++ [rbrace]).isPrefixOf (mm ++ rbrace :: rest)) = true ↔ nm = mm) := by
  intro nm
  induction nm with
  | nil =>
    intro mm _ h2
    cases mm with
    | nil => simp [List.isPrefixOf_cons₂]
    | cons c mm' =>
      simp only [noChar, List.all_cons, Bool.and_eq_true, decide_eq_true_eq] at h2
      have hbeq : (rbrace == c) = false := beq_eq_false_iff_ne.mpr fun e => h2.1 e.symm
      simp [List.isPrefixOf_cons₂, hbeq]
  | cons a nm' ih =>
    intro mm h1 h2
    simp only [noChar, List.all_cons, Bool.and_eq_true, decide_eq_true_eq] at h1
    cases mm with
    | nil =>
      have hbeq : (a == rbrace) = false := beq_eq_false_iff_ne.mpr h1.1
      simp [List.isPrefixOf_cons₂, hbeq]
    | cons c mm' =>
      simp only [noChar, List.all_cons, Bool.and_eq_true, decide_eq_true_eq] at h2
      by_cases hac : a = c
      · subst hac
        have hih := ih mm' h1.2 h2.2
        simp [List.isPrefixOf_cons₂, hih]
      · have hbeq : (a == c) = false := beq_eq_false_iff_ne.mpr hac
        simp [List.isPrefixOf_cons₂, hbeq, hac]

/-- A replace pass for one token walks unchanged over a different token
standing at the front of the string. -/
theorem replaceL_append_tokOther (nm mm rep rest : List Char)
    (h1 : noChar rbrace nm = true) (h2 : noChar rbrace mm = true)
    (h3 : noChar lbrace mm = true) (hne : nm ≠ mm) :
    replaceL (lbrace :: (nm ++ [rbrace])) rep ((lbrace :: (mm ++ [rbrace])) ++ rest)
      = (lbrace :: (mm ++ [rbrace])) ++
          replaceL (lbrace :: (nm ++ [rbrace])) rep rest := by
  have hassoc : (mm ++ [rbrace]) ++ rest = mm ++ rbrace :: rest := by simp
  have hinner : (nm ++ [rbrace]).isPrefixOf (mm ++ rbrace :: rest) = false := by
    rw [Bool.eq_false_iff]
    intro hcon
    exact hne ((close_append_isPrefixOf rest nm mm h1 h2).mp hcon)
  have hpre : (lbrace :: (nm ++ [rbrace])).isPrefixOf
      (lbrace :: ((mm ++ [rbrace]) ++ rest)) = false := by
    rw [List.isPrefixOf_cons₂, hassoc, hinner]
    simp
  show replaceGo lbrace (nm ++ [rbrace]) rep
      ((lbrace :: ((mm ++ [rbrace]) ++ rest)).length)
      (lbrace :: ((mm ++ [rbrace]) ++ rest)) = _
  rw [List.length_cons, replaceGo]
  rw [if_neg (by rw [hpre]; simp)]
  have hmm : noChar lbrace (mm ++ [rbrace]) = true := by
    simp only [noChar, List.all_append, Bool.and_eq_true] at h3 ⊢
    exact ⟨h3, by decide⟩
  have hclean := replaceL_append_clean (nm ++ [rbrace]) rep (mm ++ [rbrace]) hmm rest
  show lbrace :: replaceL (lbrace :: (nm ++ [rbrace])) rep ((mm ++ [rbrace]) ++ rest) = _
  rw [hclean]
  simp

/-- The field map consumed by the template engine: the `data` object of
`src/App.js` (lines 76–82). -/
structure FieldMap where
  time : List Char
  epicenter : List Char
  magnitude : List Char
  maxIntensity : List Char
  prefecture : List Char
deriving DecidableEq

/-- The placeholder-substitution function `fillTemplate` of `src/App.js`
(lines 16–23): five chained global replaces, in this fixed order. -/
def fillTemplate (template : List Char) (data : FieldMap) : List Char :=
  jsReplace
    (jsReplace
      (jsReplace
        (jsReplace
          (jsReplace template "{time}".data data.time)
          "{epicenter}".data data.epicenter)
        "{magnitude}".data data.magnitude)
      "{maxIntensity}".data data.maxIntensity)
    "{prefecture}".data data.prefecture

/-- The five placeholder tokens recognized by `fillTemplate`. -/
inductive Tok
  | time
  | epicenter
  | magnitude
  | maxIntensity
  | prefecture
deriving DecidableEq

/-- The name part of a token. -/
def Tok.nameStr : Tok → List Char
  | .time => "time".data
  | .epicenter => "epicenter".data
  | .magnitude => "magnitude".data
  | .maxIntensity => "maxIntensity".data
  | .prefecture => "prefecture".data

/-- The literal text of a token: the name between braces. -/
def Tok.text (t : Tok) : List Char := lbrace :: (t.nameStr ++ [rbrace])

/-- The field value a token is replaced by. -/
def Tok.value : Tok → FieldMap → List Char
  | .time, F => F.time
  | .epicenter, F => F.epicenter
  | .magnitude, F => F.magnitude
  | .maxIntensity, F => F.maxIntensity
  | .prefecture, F => F.prefecture

/-- A template split into segments: literal text or a token occurrence. -/
inductive Chunk
  | lit (s : List Char)
  | tok (t : Tok)
deriving DecidableEq

/-- The template string a segment list denotes. -/
def Chunk.flat : Chunk → List Char
  | .lit s => s
  | .tok t => t.text

def flattenChunks : List Chunk → List Char
  | [] => []
  | c :: cs => c.flat ++ flattenChunks cs

/-- Intermediate result of the chained replaces: the tokens listed in `ds`
have already been replaced by their field values, the others still stand
as their literal text. -/
def Chunk.renderAt (F : FieldMap) (ds : List Tok) : Chunk → List Char
  | .lit s => s
  | .tok t => if t ∈ ds then t.value F else t.text

def flattenAt (F : FieldMap) (ds : List Tok) : List Chunk → List Char
  | [] => []
  | c :: cs => Chunk.renderAt F ds c ++ flattenAt F ds cs

/-- Modelled from the spec's description of the template engine: every
token segment is replaced by its field value and literal segments are
kept byte-for-byte. -/
def renderSpec (F : FieldMap) : List Chunk → List Char
  | [] => []
  | .lit s :: cs => s ++ renderSpec F cs
  | .tok t :: cs => t.value F ++ renderSpec F cs

/-- Every literal segment is free of opening braces. -/
def litsOK : List Chunk → Bool
  | [] => true
  | .lit s :: cs => noChar lbrace s && litsOK cs
  | .tok _ :: cs => litsOK cs

/-- A field value is benign when it contains no opening brace and no
dollar character. -/
def valOK (v : List Char) : Bool := noChar lbrace v && noDollar v

def valuesOK (F : FieldMap) : Bool :=
  valOK F.time && valOK F.epicenter && valOK F.magnitude &&
    valOK F.maxIntensity && valOK F.prefecture

theorem tok_nameStr_lbrace (t : Tok) : noChar lbrace t.nameStr = true := by
  cases t <;> decide

theorem tok_nameStr_rbrace (t : Tok) : noChar rbrace t.nameStr = true := by
  cases t <;> decide

theorem tok_nameStr_ne (t t' : Tok) (h : t ≠ t') : t.nameStr ≠ t'.nameStr := by
  cases t <;> cases t' <;> first
    | exact absurd rfl h
    | decide

theorem valuesOK_tok {F : FieldMap} (h : valuesOK F = true) (t : Tok) :
    noChar lbrace (t.value F) = true ∧ noDollar (t.value F) = true := by
  simp only [valuesOK, valOK, Bool.and_eq_true] at h
  cases t <;> exact ⟨by tauto, by tauto⟩

theorem litsOK_head {s : List Char} {cs : List Chunk}
    (h : litsOK (Chunk.lit s :: cs) = true) :
    noChar lbrace s = true ∧ litsOK cs = true := by
  simpa [litsOK, Bool.and_eq_true] using h

/-- One global-replace pass for the token `t₀` moves a decomposed template
from the stage where the tokens of `ds` are already substituted to the
stage where `t₀` is substituted as well. -/
theorem replaceL_pass (F : FieldMap) (t₀ : Tok) :
    ∀ (cs : List Chunk) (ds : List Tok), litsOK cs = true → valuesOK F = true →
      replaceL t₀.text (t₀.value F) (flattenAt F ds cs) = flattenAt F (t₀ :: ds) cs := by
  intro cs
  induction cs with
  | nil => intro ds _ _; rfl
  | cons c cs' ih =>
    intro ds hl hv
    cases c with
    | lit s =>
      have hs := litsOK_head hl
      show replaceL t₀.text (t₀.value F) (s ++ flattenAt F ds cs') = _
      rw [Tok.text, replaceL_append_clean _ _ s hs.1, ← Tok.text,
        ih ds hs.2 hv]
      rfl
    | tok t =>
      have hl' : litsOK cs' = true := by simpa [litsOK] using hl
      by_cases hmem : t ∈ ds
      · have hval := valuesOK_tok hv t
        show replaceL t₀.text (t₀.value F) (Chunk.renderAt F ds (.tok t) ++ flattenAt F ds cs') = _
        rw [Chunk.renderAt, if_pos hmem]
        rw [Tok.text, replaceL_append_clean _ _ (t.value F) hval.1, ← Tok.text,
          ih ds hl' hv]
        show _ = Chunk.renderAt F (t₀ :: ds) (.tok t) ++ flattenAt F (t₀ :: ds) cs'
        rw [Chunk.renderAt, if_pos (List.mem_cons_of_mem t₀ hmem)]
      · by_cases heq : t = t₀
        · subst heq
          show replaceL t.text (t.value F) (Chunk.renderAt F ds (.tok t) ++ flattenAt F ds cs') = _
          rw [Chunk.renderAt, if_neg hmem]
          rw [Tok.text, replaceL_append_pat, ← Tok.text, ih ds hl' hv]
          show _ = Chunk.renderAt F (t :: ds) (.tok t) ++ flattenAt F (t :: ds) cs'
          rw [Chunk.renderAt, if_pos (List.mem_cons_self t ds)]
        · show replaceL t₀.text (t₀.value F) (Chunk.renderAt F ds (.tok t) ++ flattenAt F ds cs') = _
          rw [Chunk.renderAt, if_neg hmem]
          have hne : t₀.nameStr ≠ t.nameStr := tok_nameStr_ne t₀ t (fun e => heq e.symm)
          rw [Tok.text, Tok.text,
            replaceL_append_tokOther t₀.nameStr t.nameStr (t₀.value F)
              (flattenAt F ds cs') (tok_nameStr_rbrace t₀) (tok_nameStr_rbrace t)
              (tok_nameStr_lbrace t) hne,
            ← Tok.text, ← Tok.text, ih ds hl' hv]
          show _ = Chunk.renderAt F (t₀ :: ds) (.tok t) ++ flattenAt F (t₀ :: ds) cs'
          have hnot : t ∉ t₀ :: ds := by
            intro hmem'
            rcases List.mem_cons.mp hmem' with h | h
            · exact heq h
            · exact hmem h
          rw [Chunk.renderAt, if_neg hnot]

theorem flattenAt_nil_done (F : FieldMap) :
    ∀ cs : List Chunk, flattenAt F [] cs = flattenChunks cs := by
  intro cs
  induction cs with
  | nil => rfl
  | cons c cs ih =>
    cases c <;> simp [flattenAt, flattenChunks, Chunk.renderAt, Chunk.flat, ih]

theorem flattenAt_all_done (F : FieldMap) (ds : List Tok) (hds : ∀ t : Tok, t ∈ ds) :
    ∀ cs : List Chunk, flattenAt F ds cs = renderSpec F cs := by
  intro cs
  induction cs with
  | nil => rfl
  | cons c cs ih =>
    cases c with
    | lit s => simp [flattenAt, renderSpec, Chunk.renderAt, ih]
    | tok t => simp [flattenAt, renderSpec, Chunk.renderAt, hds t, ih]

/-- The five tokens in the order the code replaces them, latest pass
first (the bookkeeping order of `flattenAt`). -/
def allToks : List Tok := [.prefecture, .maxIntensity, .magnitude, .epicenter, .time]

theorem fillTemplate_chunks (cs : List Chunk) (F : FieldMap)
    (hl : litsOK cs = true) (hv : valuesOK F = true) :
    fillTemplate (flattenChunks cs) F = renderSpec F cs := by
  have h1 : noDollar F.time = true := (valuesOK_tok hv .time).2
  have h2 : noDollar F.epicenter = true := (valuesOK_tok hv .epicenter).2
  have h3 : noDollar F.magnitude = true := (valuesOK_tok hv .magnitude).2
  have h4 : noDollar F.maxIntensity = true := (valuesOK_tok hv .maxIntensity).2
  have h5 : noDollar F.prefecture = true := (valuesOK_tok hv .prefecture).2
  have e1 : jsReplace (flattenChunks cs) "{time}".data F.time
      = flattenAt F [.time] cs := by
    rw [jsReplace_eq_replaceL _ _ _ h1, ← flattenAt_nil_done F cs]
    exact replaceL_pass F .time cs [] hl hv
  have e2 : jsReplace (flattenAt F [.time] cs) "{epicenter}".data F.epicenter
      = flattenAt F [.epicenter, .time] cs := by
    rw [jsReplace_eq_replaceL _ _ _ h2]
    exact replaceL_pass F .epicenter cs [.time] hl hv
  have e3 : jsReplace (flattenAt F [.epicenter, .time] cs) "{magnitude}".data F.magnitude
      = flattenAt F [.magnitude, .epicenter, .time] cs := by
    rw [jsReplace_eq_replaceL _ _ _ h3]
    exact replaceL_pass F .magnitude cs [.epicenter, .time] hl hv
  have e4 : jsReplace (flattenAt F [.magnitude, .epicenter, .time] cs)
      "{maxIntensity}".data F.maxIntensity
      = flattenAt F [.maxIntensity, .magnitude, .epicenter, .time] cs := by
    rw [jsReplace_eq_replaceL _ _ _ h4]
    exact replaceL_pass F .maxIntensity cs [.magnitude, .epicenter, .time] hl hv
  have e5 : jsReplace (flattenAt F [.maxIntensity, .magnitude, .epicenter, .time] cs)
      "{prefecture}".data F.prefecture
      = flattenAt F allToks cs := by
    rw [jsReplace_eq_replaceL _ _ _ h5]
    exact replaceL_pass F .prefecture cs [.maxIntensity, .magnitude, .epicenter, .time] hl hv
  show jsReplace (jsReplace (jsReplace (jsReplace (jsReplace (flattenChunks cs)
    "{time}".data F.time) "{epicenter}".data F.epicenter) "{magnitude}".data F.magnitude)
    "{maxIntensity}".data F.maxIntensity) "{prefecture}".data F.prefecture = renderSpec F cs
  rw [e1, e2, e3, e4, e5]
  exact flattenAt_all_done F allToks (by intro t; cases t <;> simp [allToks]) cs

/-!
## Data model

A record of the fetched JSON list, as the program observes it.  The
`time` field of a record is observed only through `new Date(...)`: its
numeric value (used by the sort comparator) and its local-calendar
components (used by the display formatting).  Those observations are
carried as given data, since parsing and time-zone resolution happen in
the JavaScript environment.
-/

/-- Observations of the `Date` parsed from a record's time string:
`getTime`, `getFullYear`, `getMonth` (0-based), `getDate`, `getHours`,
`getMinutes`. -/
structure Timestamp where
  val : Int
  year : Nat
  month0 : Nat
  day : Nat
  hour : Nat
  minute : Nat
deriving DecidableEq

/-- An earthquake record of the fetched list: `id`, `time`, `pref`
(array of prefecture names, possibly missing), `name` (epicenter,
optional), `mag` (number, optional), `maxInt` (optional).  JSON numbers
are modelled as rationals. -/
structure EqRecord where
  id : List Char
  time : Timestamp
  pref : Option (List (List Char))
  name : Option (List Char)
  mag : Option ℚ
  maxInt : Option (List Char)
deriving DecidableEq

/-- The filter predicate of line 50: `eq.pref && eq.pref.includes(p)` —
a missing `pref` array fails the guard, otherwise `includes` is exact
string membership. -/
def prefMatch (e : EqRecord) (p : List Char) : Bool :=
  match e.pref with
  | none => false
  | some l => decide (p ∈ l)

/-- The sort order of line 51: comparator `new Date(b.time) - new
Date(a.time)`, i.e. `a` may precede `b` when the comparator is at most
zero — newest first. -/
def newerFirst (a b : EqRecord) : Prop := b.time.val ≤ a.time.val

instance : DecidableRel newerFirst := fun a b =>
  inferInstanceAs (Decidable (b.time.val ≤ a.time.val))

instance : IsTotal EqRecord newerFirst :=
  ⟨fun a b => le_total b.time.val a.time.val⟩

instance : IsTrans EqRecord newerFirst :=
  ⟨fun _ _ _ hab hbc => le_trans hbc hab⟩

/-- Lines 49–52: filter by the selected prefecture, then sort newest
first.  JavaScript's `Array.prototype.sort` is required to be stable,
and the output of a stable sort under a total transitive comparator is
unique, so it is modelled by the stable `List.insertionSort`. -/
def selectCandidates (records : List EqRecord) (p : List Char) : List EqRecord :=
  List.insertionSort newerFirst (records.filter fun e => prefMatch e p)

/-- Line 54: `filtered.length > 0 ? filtered[0] : null`. -/
def defaultSelection (records : List EqRecord) (p : List Char) : Option EqRecord :=
  let filtered := selectCandidates records p
  if h : 0 < filtered.length then some (filtered.get ⟨0, h⟩) else none

/-!
## Field formatting
-/

/-- Decimal digit character. -/
def digitCh (n : Nat) : Char := Char.ofNat (48 + n)

/-- Decimal rendering of a natural number, most significant digit
first; the fuel argument only forces termination. -/
def natStrGo : Nat → Nat → List Char
  | 0, _ => []
  | fuel + 1, n => if n < 10 then [digitCh n] else natStrGo fuel (n / 10) ++ [digitCh (n % 10)]

def natStr (n : Nat) : List Char := natStrGo (n + 1) n

/-- Fractional decimal digits of `rem / den`, stopping when the
remainder vanishes. -/
def fracDigits : Nat → Nat → Nat → List Char
  | 0, _, _ => []
  | _ + 1, 0, _ => []
  | fuel + 1, rem, den => digitCh (rem * 10 / den) :: fracDigits fuel (rem * 10 % den) den

/-- Decimal rendering of a rational, modelling the string interpolation
of a JavaScript number (the magnitudes of the feed are short decimal
fractions, printed exactly). -/
def magStr (q : ℚ) : List Char :=
  (if q.num < 0 then ['-'] else []) ++
    natStr (q.num.natAbs / q.den) ++
    (if q.num.natAbs % q.den = 0 then []
     else '.' :: fracDigits 20 (q.num.natAbs % q.den) q.den)

/-- `String(n).padStart(2, "0")`. -/
def padStart2 (s : List Char) : List Char :=
  if s.length < 2 then List.replicate (2 - s.length) '0' ++ s else s

/-- Lines 69–74: the display string
`${year}年${month0+1}月${day}日 ${hours}:${minutes padded to 2}`. -/
def formattedTime (d : Timestamp) : List Char :=
  natStr d.year ++ "年".data ++ natStr (d.month0 + 1) ++ "月".data ++
    natStr d.day ++ "日 ".data ++ natStr d.hour ++ ":".data ++
    padStart2 (natStr d.minute)

def unknownStr : List Char := "不明".data

/-- Lines 76–82: the field map built from the selected record.  `||`
takes the fallback on a missing or empty string, the conditional on
`mag` takes the fallback on a missing or zero number. -/
def formatFields (e : EqRecord) (selectedPref : List Char) : FieldMap :=
  { time := formattedTime e.time
    epicenter :=
      match e.name with
      | none => unknownStr
      | some s => if s = [] then unknownStr else s
    magnitude :=
      match e.mag with
      | none => "M不明".data
      | some q => if q = 0 then "M不明".data else 'M' :: magStr q
    maxIntensity :=
      match e.maxInt with
      | none => unknownStr
      | some s => if s = [] then unknownStr else s
    prefecture := selectedPref }

/-- The fixed message shown when no earthquake is selected
(line 85). -/
def noMatchMsg : List Char := "該当する地震がありません".data

/-- Lines 66–87: the effect computing the rendered output — template
substitution for a selected record, the fixed message otherwise. -/
def computeFilled (selectedEq : Option EqRecord) (template : List Char)
    (selectedPref : List Char) : List Char :=
  match selectedEq with
  | some e => fillTemplate template (formatFields e selectedPref)
  | none => noMatchMsg

/-!
## Application shell state machine

States are the React state variables of `App`; events are the atomic
state updates the handlers and effects perform: a prefecture change
whose fetch completes successfully or with an error, picking an
earthquake in the list, and editing the template.
-/

/-- The 47 prefecture labels of lines 5–13. -/
def PREFECTURES : List (List Char) :=
  ["北海道".data, "青森".data, "岩手".data, "宮城".data, "秋田".data, "山形".data,
   "福島".data, "茨城".data, "栃木".data, "群馬".data, "埼玉".data, "千葉".data,
   "東京".data, "神奈川".data, "新潟".data, "富山".data, "石川".data, "福井".data,
   "山梨".data, "長野".data, "岐阜".data, "静岡".data, "愛知".data, "三重".data,
   "滋賀".data, "京都".data, "大阪".data, "兵庫".data, "奈良".data, "和歌山".data,
   "鳥取".data, "島根".data, "岡山".data, "広島".data, "山口".data, "徳島".data,
   "香川".data, "愛媛".data, "高知".data, "福岡".data, "佐賀".data, "長崎".data,
   "熊本".data, "大分".data, "宮崎".data, "鹿児島".data, "沖縄".data]

structure AppState where
  selectedPref : List Char
  earthquakes : List EqRecord
  selectedEq : Option EqRecord
  template : List Char
  filled : List Char
  loading : Bool
  error : Option (List Char)
deriving DecidableEq

/-- The initial template of lines 29–31. -/
def defaultTemplate : List Char :=
  "【地震情報】{time} 発生。震源地は {epicenter}、M{magnitude}、最大震度 {maxIntensity}。（{prefecture}県庁所在地）".data

/-- The state after mount: first prefecture selected, nothing fetched
yet, no selection, so the render effect has produced the fixed
message. -/
def initState : AppState :=
  { selectedPref := PREFECTURES.headD []
    earthquakes := []
    selectedEq := none
    template := defaultTemplate
    filled := noMatchMsg
    loading := false
    error := none }

inductive Ev
  /-- Prefecture changed to `p` and the triggered fetch succeeded with
  the record list `data` (lines 37–63, success path). -/
  | fetchOk (p : List Char) (data : List EqRecord)
  /-- Prefecture changed to `p` and the triggered fetch failed with
  message `msg` (lines 55–56): only `error` is set, the previous list
  and selection stay. -/
  | fetchErr (p : List Char) (msg : List Char)
  /-- The user picked the entry with id `pickedId` in the earthquake
  list (lines 124–128). -/
  | pickEq (pickedId : List Char)
  /-- The user edited the template (line 153). -/
  | editTemplate (t : List Char)

def step (s : AppState) : Ev → AppState
  | .fetchOk p data =>
    let filtered := selectCandidates data p
    let sel := defaultSelection data p
    { s with selectedPref := p, earthquakes := filtered, selectedEq := sel,
             loading := false, error := none,
             filled := computeFilled sel s.template p }
  | .fetchErr p msg =>
    { s with selectedPref := p, loading := false, error := some msg,
             filled := computeFilled s.selectedEq s.template p }
  | .pickEq pickedId =>
    let sel := s.earthquakes.find? fun e => decide (e.id = pickedId)
    { s with selectedEq := sel,
             filled := computeFilled sel s.template s.selectedPref }
  | .editTemplate t =>
    { s with template := t,
             filled := computeFilled s.selectedEq t s.selectedPref }

def runEvents : AppState → List Ev → AppState
  | s, [] => s
  | s, ev :: evs => runEvents (step s ev) evs

/-- The selection, when non-null, is a member of the candidate list held
in the state. -/
def selInv (s : AppState) : Prop :=
  ∀ e : EqRecord, s.selectedEq = some e → e ∈ s.earthquakes

/-!
## Shared helper lemmas
-/

theorem mem_select_prefMatch {R : List EqRecord} {P : List Char} {r : EqRecord}
    (h : r ∈ selectCandidates R P) : r ∈ R ∧ prefMatch r P = true :=
  List.mem_filter.mp ((List.perm_insertionSort newerFirst _).mem_iff.mp h)

theorem defaultSelection_eq_head (R : List EqRecord) (P : List Char) :
    defaultSelection R P = (selectCandidates R P).head? := by
  show (if h : 0 < (selectCandidates R P).length
    then some ((selectCandidates R P).get ⟨0, h⟩) else none) = _
  cases h : selectCandidates R P with
  | nil => simp
  | cons a l => simp

theorem mem_of_head_eq {α : Type} {l : List α} {a : α} (h : l.head? = some a) :
    a ∈ l := by
  cases l with
  | nil => simp at h
  | cons b t =>
    simp only [List.head?_cons, Option.some.injEq] at h
    simp [h]

theorem natStr_small {n : Nat} (h : n < 10) : natStr n = [digitCh n] := by
  simp [natStr, natStrGo, h]

theorem natStrGo_ne_nil (fuel n : Nat) : natStrGo (fuel + 1) n ≠ [] := by
  by_cases h : n < 10 <;> simp [natStrGo, h]

theorem natStr_large {n : Nat} (h : 10 ≤ n) : 2 ≤ (natStr n).length := by
  obtain ⟨m, rfl⟩ : ∃ m, n = m + 1 := ⟨n - 1, by omega⟩
  rw [natStr, natStrGo, if_neg (by omega)]
  have hne := natStrGo_ne_nil m ((m + 1) / 10)
  have hpos : 0 < (natStrGo (m + 1) ((m + 1) / 10)).length := List.length_pos.mpr hne
  simp only [List.length_append, List.length_cons, List.length_nil]
  omega

theorem padStart2_natStr (m : Nat) :
    padStart2 (natStr m) = if m < 10 then '0' :: natStr m else natStr m := by
  by_cases h : m < 10
  · rw [if_pos h, natStr_small h]
    simp [padStart2]
  · rw [if_neg h]
    have hlen := natStr_large (Nat.le_of_not_lt h)
    simp only [padStart2]
    rw [if_neg (by omega)]

/-- Modelled from the spec's words for the time field: the pattern
`YEAR年MONTH月DAY日 HOUR:MINUTE` on a 24-hour clock, year, month, day
and hour as unpadded decimal numbers, the minute zero-padded to two
digits. -/
def specFormattedTime (d : Timestamp) : List Char :=
  natStr d.year ++ "年".data ++ natStr (d.month0 + 1) ++ "月".data ++
    natStr d.day ++ "日 ".data ++ natStr d.hour ++ ":".data ++
    (if d.minute < 10 then '0' :: natStr d.minute else natStr d.minute)

/-!
## The claims
-/

/-- A field map sending the time token to the literal text of the
epicenter token, exposing the sequential-replacement behavior. -/
def c1cexF : FieldMap :=
  { time := "{epicenter}".data, epicenter := "X".data, magnitude := "M1".data,
    maxIntensity := "I1".data, prefecture := "P1".data }

/-- C1, counterexample: with the field map sending `time` to the literal
text `"{epicenter}"`, the render of the template consisting of the single
time token is not the time field value (as literal, non-recursive
replacement would demand) but the epicenter field value: the chained
replaces substitute into already-substituted text. -/
theorem c1_counterexample :
    fillTemplate "{time}".data c1cexF ≠ c1cexF.time ∧
      fillTemplate "{time}".data c1cexF = c1cexF.epicenter := by decide

/-- C1, amended: for a template decomposed into literal segments free of
opening braces and token segments, and a field map whose values contain
no opening brace and no dollar character, `fillTemplate` of the
concatenated template replaces every token occurrence by its field value
and leaves every literal segment byte-for-byte unchanged. -/
theorem c1_render (cs : List Chunk) (F : FieldMap)
    (hl : litsOK cs = true) (hv : valuesOK F = true) :
    fillTemplate (flattenChunks cs) F = renderSpec F cs :=
  fillTemplate_chunks cs F hl hv

def c1wcs : List Chunk :=
  [.lit "A ".data, .tok .time, .lit " B ".data, .tok .prefecture, .tok .time]

def c1wF : FieldMap :=
  { time := "T1".data, epicenter := "E1".data, magnitude := "M1".data,
    maxIntensity := "I1".data, prefecture := "P1".data }

/-- C1, witness: the amended theorem applied to a concrete decomposed
template with two time tokens and a prefecture token. -/
theorem c1_witness :
    litsOK c1wcs = true ∧ valuesOK c1wF = true ∧
      fillTemplate (flattenChunks c1wcs) c1wF = renderSpec c1wF c1wcs :=
  ⟨by decide, by decide, c1_render c1wcs c1wF (by decide) (by decide)⟩

/-- C2: `selectCandidates` returns exactly the records of the input whose
prefecture set contains the selected prefecture (as a permutation of the
filtered input, and with the membership characterization), ordered
non-increasing by the occurrence timestamp value. -/
theorem c2_select_candidates (R : List EqRecord) (P : List Char) :
    (selectCandidates R P).Perm (R.filter fun e => prefMatch e P) ∧
    List.Pairwise (fun a b : EqRecord => b.time.val ≤ a.time.val)
      (selectCandidates R P) ∧
    ∀ r : EqRecord, r ∈ selectCandidates R P ↔
      (r ∈ R ∧ ∃ l, r.pref = some l ∧ P ∈ l) := by
  refine ⟨List.perm_insertionSort _ _,
    List.sorted_insertionSort newerFirst (R.filter fun e => prefMatch e P), ?_⟩
  intro r
  constructor
  · intro h
    obtain ⟨hR, hm⟩ := mem_select_prefMatch h
    refine ⟨hR, ?_⟩
    unfold prefMatch at hm
    cases hpref : r.pref with
    | none => rw [hpref] at hm; simp at hm
    | some l => rw [hpref] at hm; exact ⟨l, rfl, of_decide_eq_true hm⟩
  · rintro ⟨hR, l, hl, hmem⟩
    have hf : r ∈ R.filter fun e => prefMatch e P := by
      rw [List.mem_filter]
      refine ⟨hR, ?_⟩
      unfold prefMatch
      rw [hl]
      simpa using hmem
    exact (List.perm_insertionSort newerFirst _).mem_iff.mpr hf

/-- C3, counterexample: a record whose magnitude is present but equal to
zero is formatted as the unknown-magnitude marker, not as `"M"` followed
by the magnitude, because the code tests JavaScript truthiness of
`mag`. -/
def c3cex : EqRecord :=
  ⟨"c3".data, ⟨0, 2025, 0, 1, 0, 0⟩, some [], none, some 0, none⟩

theorem c3_counterexample :
    c3cex.mag = some 0 ∧ (formatFields c3cex []).magnitude = "M不明".data ∧
      "M不明".data ≠ 'M' :: magStr 0 := by decide

/-- C3, amended: the magnitude field equals the record's magnitude
prefixed with `M` when the magnitude is present and nonzero, and equals
the unknown-magnitude marker `"M不明"` (not a crash or empty string) when
the magnitude is absent or zero. -/
theorem c3_magnitude_field (r : EqRecord) (p : List Char) :
    ((r.mag = none ∨ r.mag = some 0) →
      (formatFields r p).magnitude = "M不明".data) ∧
    (∀ q : ℚ, r.mag = some q → q ≠ 0 →
      (formatFields r p).magnitude = 'M' :: magStr q) := by
  constructor
  · rintro (h | h) <;> simp [formatFields, h]
  · intro q hq hq0
    simp [formatFields, hq, hq0]

def c3w : EqRecord :=
  ⟨"c3w".data, ⟨0, 2025, 0, 1, 0, 0⟩, some [], none, some 6, none⟩

/-- C3, witness: a record with magnitude 6 is formatted as `M` followed
by the rendering of 6. -/
theorem c3_witness : (formatFields c3w []).magnitude = 'M' :: magStr 6 :=
  (c3_magnitude_field c3w []).2 6 rfl (by decide)

/-- C4: with no current selection the computed output is the fixed
message `"該当する地震がありません"` (the "no matching earthquake"
sentinel), for every template and prefecture — the substitution function
is bypassed, so the result does not depend on the template at all. -/
theorem c4_no_selection_message (template selectedPref : List Char) :
    computeFilled none template selectedPref = noMatchMsg := rfl

/-- C5: the default selection is the first element of the ordered
candidate list, or none when the list is empty; the empty input yields an
empty list and a null selection (all functions are total, so no error is
possible). -/
theorem c5_default_selection (R : List EqRecord) (P : List Char) :
    defaultSelection R P = (selectCandidates R P).head? ∧
    selectCandidates [] P = [] ∧ defaultSelection [] P = none :=
  ⟨defaultSelection_eq_head R P, rfl, rfl⟩

/-- C6: the time field of the formatter is the occurrence timestamp in
the pattern `YEAR年MONTH月DAY日 HOUR:MINUTE`, 24-hour clock, minute
zero-padded to two digits, month, day and hour unpadded (the month
displayed is the 0-based month observation plus one). -/
theorem c6_time_format (e : EqRecord) (p : List Char) :
    (formatFields e p).time = specFormattedTime e.time := by
  show formattedTime e.time = specFormattedTime e.time
  unfold formattedTime specFormattedTime
  rw [padStart2_natStr]

/-- C7: a template containing no occurrence of any of the five
recognized tokens renders to itself for every field map — unrecognized
tokens and malformed braces pass through untouched. -/
theorem c7_token_free_identity (T : List Char) (F : FieldMap)
    (h1 : hasOccur "{time}".data T = false)
    (h2 : hasOccur "{epicenter}".data T = false)
    (h3 : hasOccur "{magnitude}".data T = false)
    (h4 : hasOccur "{maxIntensity}".data T = false)
    (h5 : hasOccur "{prefecture}".data T = false) :
    fillTemplate T F = T := by
  unfold fillTemplate
  rw [jsReplace_of_no_occur _ _ _ h1, jsReplace_of_no_occur _ _ _ h2,
    jsReplace_of_no_occur _ _ _ h3, jsReplace_of_no_occur _ _ _ h4,
    jsReplace_of_no_occur _ _ _ h5]

def c7T : List Char := "地震 \x7bdate\x7d and \x7b broken".data

def c7F : FieldMap :=
  { time := "T7".data, epicenter := "E7".data, magnitude := "M7".data,
    maxIntensity := "I7".data, prefecture := "P7".data }

/-- C7, witness: a template with an unrecognized token and a malformed
stray brace renders to itself. -/
theorem c7_witness :
    hasOccur "{time}".data c7T = false ∧
    hasOccur "{epicenter}".data c7T = false ∧
    hasOccur "{magnitude}".data c7T = false ∧
    hasOccur "{maxIntensity}".data c7T = false ∧
    hasOccur "{prefecture}".data c7T = false ∧
    fillTemplate c7T c7F = c7T :=
  ⟨by decide, by decide, by decide, by decide, by decide,
    c7_token_free_identity c7T c7F (by decide) (by decide) (by decide)
      (by decide) (by decide)⟩

/-- C8 as stated: in every reachable state the selection, if non-null,
is a member of the current candidate list and matches the currently
selected prefecture (membership in "the filtered candidate list for the
currently selected prefecture" entails the latter, since that list is a
filter by the prefecture). -/
def claimC8 : Prop :=
  ∀ (evs : List Ev) (e : EqRecord),
    (runEvents initState evs).selectedEq = some e →
      e ∈ (runEvents initState evs).earthquakes ∧
        prefMatch e (runEvents initState evs).selectedPref = true

def c8rec : EqRecord :=
  ⟨"8".data, ⟨0, 2025, 0, 1, 0, 0⟩, some ["東京".data], none, none, none⟩

def c8evs : List Ev :=
  [.fetchOk "東京".data [c8rec], .fetchErr "大阪".data "API接続エラー".data]

/-- C8, counterexample: select 東京 with one matching record, then switch
to 大阪 with a failing fetch — the error path leaves the old list and
selection in place, so the state holds a selection whose prefecture set
does not contain the currently selected prefecture. -/
theorem c8_counterexample : ¬ claimC8 := fun h =>
  absurd ((h c8evs c8rec (by decide)).2) (by decide)

/-- C8, amended: the selection, if non-null, is always a member of the
candidate list held in the state (inductive invariant of every event,
from the initial state); a prefecture change whose fetch succeeds
recomputes the list and the selection together, so the new selection is
the head of the new list and every member of that list matches the new
prefecture.  A prefecture change whose fetch fails, however, retains the
previous list and selection, so a stale cross-prefecture selection can
persist in the error state. -/
theorem c8_selection_invariant :
    selInv initState ∧
    (∀ (s : AppState) (ev : Ev), selInv s → selInv (step s ev)) ∧
    (∀ (s : AppState) (p : List Char) (data : List EqRecord),
      (step s (.fetchOk p data)).selectedPref = p ∧
      (step s (.fetchOk p data)).earthquakes = selectCandidates data p ∧
      (step s (.fetchOk p data)).selectedEq = (selectCandidates data p).head? ∧
      ∀ e : EqRecord, e ∈ selectCandidates data p → prefMatch e p = true) := by
  refine ⟨fun _e h => Option.noConfusion h, ?_, ?_⟩
  · intro s ev hs
    cases ev with
    | fetchOk p data =>
      intro e h
      have h' : defaultSelection data p = some e := h
      rw [defaultSelection_eq_head] at h'
      exact mem_of_head_eq h'
    | fetchErr p msg => exact fun e h => hs e h
    | pickEq pickedId =>
      intro _e h
      exact List.mem_of_find?_eq_some h
    | editTemplate t => exact fun e h => hs e h
  · intro s p data
    refine ⟨rfl, rfl, defaultSelection_eq_head data p, ?_⟩
    intro e h
    exact (mem_select_prefMatch h).2

/-- C8, witness: the invariant-preservation part applied to the initial
state and a template edit, with the invariant of the initial state
discharged explicitly. -/
theorem c8_witness : selInv (step initState (Ev.editTemplate [])) :=
  c8_selection_invariant.2.1 initState (Ev.editTemplate [])
    (fun _e h => Option.noConfusion h)

/-- C9: a magnitude present but zero, an epicenter name present but
empty, and a maximum intensity present but empty are formatted exactly
as if the field were absent — presence with a falsy value is
indistinguishable from absence in the formatter's output. -/
theorem c9_falsy_equals_absent (r : EqRecord) (p : List Char) :
    formatFields { r with mag := some 0 } p = formatFields { r with mag := none } p ∧
    formatFields { r with name := some [] } p = formatFields { r with name := none } p ∧
    formatFields { r with maxInt := some [] } p = formatFields { r with maxInt := none } p := by
  refine ⟨?_, ?_, ?_⟩ <;> simp [formatFields]

/-- C10: every record in a candidate list has a present prefecture array
containing the selected prefecture; hence a record with a missing
prefecture array is excluded from every candidate list (the membership
test sits behind the `eq.pref &&` guard and all functions are total, so
no error is raised). -/
theorem c10_missing_pref_excluded (R : List EqRecord) (P : List Char)
    (r : EqRecord) (h : r ∈ selectCandidates R P) :
    ∃ l, r.pref = some l ∧ P ∈ l := by
  have hm : prefMatch r P = true := (mem_select_prefMatch h).2
  unfold prefMatch at hm
  cases hpref : r.pref with
  | none => rw [hpref] at hm; simp at hm
  | some l => rw [hpref] at hm; exact ⟨l, rfl, of_decide_eq_true hm⟩

def c10w : EqRecord :=
  ⟨"10".data, ⟨0, 2025, 0, 1, 0, 0⟩, some ["東京".data], none, none, none⟩

/-- C10, witness: the theorem applied to a singleton candidate list. -/
theorem c10_witness : ∃ l, c10w.pref = some l ∧ "東京".data ∈ l :=
  c10_missing_pref_excluded [c10w] "東京".data c10w (by decide)

end Bousai
